import Mathlib

set_option maxHeartbeats 1000000

/-! Shallow embedding of the CK3 mod validation and static-analysis engine
(`test_scripts/ck3_mod_manager.py`). Document text is modelled as `List Char`;
the regular-expression searches of the source are embedded as executable
character-level matchers with Python `re` semantics for the concrete patterns
the source uses. The filesystem is modelled as explicit directory and file
lists; file reads that can fail are modelled with `Except`. -/

/-- Python word-character class, ASCII view of `\w` as used by the patterns. -/
def isWordChar (c : Char) : Bool := c.isAlphanum || c = '_'

/-- Python whitespace class `\s`. -/
def isSpaceChar (c : Char) : Bool :=
  c = ' ' || c = '\t' || c = '\n' || c = '\r' || c = '\x0b' || c = '\x0c'

/-- Consume the `\s*` of a pattern: drop leading whitespace. -/
def dropSpaces (s : List Char) : List Char := s.dropWhile isSpaceChar

/-- Does the pattern list appear verbatim at the front of the text list? -/
def startsWithL : List Char → List Char → Bool
  | [], _ => true
  | _ :: _, [] => false
  | p :: ps, c :: cs => p = c && startsWithL ps cs

/-- Does `pat` occur as a contiguous substring of the text? -/
def containsSubAux (pat : List Char) : List Char → Bool
  | [] => startsWithL pat []
  | c :: rest => startsWithL pat (c :: rest) || containsSubAux pat rest

/-- String-level substring test, used to state the claims about messages. -/
def strContains (s pat : String) : Bool := containsSubAux pat.toList s.toList

/-- Match `(\w+)` at the front: a nonempty run of word characters; returns the
captured run and the remaining text. -/
def takeWord (s : List Char) : Option (List Char × List Char) :=
  let w := s.takeWhile isWordChar
  if w.isEmpty then none else some (w, s.drop w.length)

/-- Match `(\w+\.\d+)` at the front, with Python backtracking semantics: the
maximal word run, a literal dot, then a nonempty digit run. -/
def takeDottedId (s : List Char) : Option (List Char × List Char) :=
  let w := s.takeWhile isWordChar
  if w.isEmpty then none
  else
    match s.drop w.length with
    | '.' :: rest =>
      let d := rest.takeWhile Char.isDigit
      if d.isEmpty then none
      else some (w ++ '.' :: d, rest.drop d.length)
    | _ => none

/-- Match a brace block pattern at the front: an opening brace, a nonempty run
of characters other than the closing brace (the capture), then the closing
brace. -/
def takeBrace (s : List Char) : Option (List Char × List Char) :=
  match s with
  | '{' :: rest =>
    let b := rest.takeWhile (fun c => c ≠ '}')
    if b.isEmpty then none
    else
      match rest.drop b.length with
      | '}' :: r2 => some (b, r2)
      | _ => none
  | _ => none

/-- Shape of the captured value in the three pattern forms the rule table uses. -/
inductive ValueForm where
  | word
  | dottedId
  | braceBlock
deriving DecidableEq, Repr

/-- Take the value part of a field pattern at the front of the text. -/
def takeValue : ValueForm → List Char → Option (List Char × List Char)
  | .word, s => takeWord s
  | .dottedId, s => takeDottedId s
  | .braceBlock, s => takeBrace s

/-- One extraction pattern of the rule table: a key, then optional whitespace,
an equals sign, optional whitespace, and a value of the given form. -/
structure FieldPattern where
  key : String
  form : ValueForm
deriving DecidableEq, Repr

/-- Try to match a field pattern at the current position; on success return
the captured value and the text after the whole match. -/
def matchPatAt (p : FieldPattern) (s : List Char) : Option (List Char × List Char) :=
  let k := p.key.toList
  if startsWithL k s then
    match dropSpaces (s.drop k.length) with
    | '=' :: s2 => takeValue p.form (dropSpaces s2)
    | _ => none
  else none

/-- Does `re.search` of the pattern succeed anywhere in the text? -/
def searchAux (p : FieldPattern) : List Char → Bool
  | [] => (matchPatAt p []).isSome
  | c :: rest => (matchPatAt p (c :: rest)).isSome || searchAux p rest

/-- Embedding of `re.search(pattern, content)` truthiness for a field pattern. -/
def fieldSearch (p : FieldPattern) (content : String) : Bool :=
  searchAux p content.toList

/-- Pattern for `namespace\s*=\s*(\w+)`. -/
def namespacePat : FieldPattern := ⟨"namespace", .word⟩

/-- Pattern for `id\s*=\s*(\w+\.\d+)`. -/
def idPat : FieldPattern := ⟨"id", .dottedId⟩

/-- Pattern for the `is_shown` brace-block pattern of the decisions rules. -/
def isShownPat : FieldPattern := ⟨"is_shown", .braceBlock⟩

/-- Pattern for the `effect` brace-block pattern of the decisions rules. -/
def effectPat : FieldPattern := ⟨"effect", .braceBlock⟩

/-- Pattern for `trigger_event\s*=\s*(\w+\.\d+)` used by reference extraction. -/
def triggerEventPat : FieldPattern := ⟨"trigger_event", .dottedId⟩

/-- One category of the rule table: required fields, optional fields, and the
extraction patterns, in declared (insertion) order. -/
structure RuleSet where
  required : List String
  optional : List String
  patterns : List (String × FieldPattern)
deriving DecidableEq, Repr

/-- The `events` entry of `self.rules`. -/
def rules_events : RuleSet :=
  { required := ["namespace", "id"]
    optional := ["trigger", "effect"]
    patterns := [("namespace", namespacePat), ("id", idPat)] }

/-- The `decisions` entry of `self.rules`. -/
def rules_decisions : RuleSet :=
  { required := ["is_shown", "effect"]
    optional := ["ai_check"]
    patterns := [("is_shown", isShownPat), ("effect", effectPat)] }

/-- The `effects` catalog of `self.rules`: valid effect names and scopes. -/
structure EffectCatalog where
  valid : List String
  scopes : List String
deriving DecidableEq, Repr

/-- The `effects` entry of `self.rules` (declared but unused by validation). -/
def rules_effects : EffectCatalog :=
  { valid := ["add_prestige", "add_gold", "trigger_event", "add_trait"]
    scopes := ["character", "title", "province"] }

/-- Message text of `f"Missing required field '.' in ."` and its optional twin. -/
def missingFieldMsg (required : Bool) (field path : String) : String :=
  "Missing " ++ (if required then "required" else "optional") ++
    " field \x27" ++ field ++ "\x27 in " ++ path

/-- Message text of `f"Missing required folder: ."`. -/
def missingRequiredFolderMsg (folder : String) : String :=
  "Missing required folder: " ++ folder

/-- Message text of `f"Missing optional folder: ."`. -/
def missingOptionalFolderMsg (folder : String) : String :=
  "Missing optional folder: " ++ folder

/-- A reference record as produced by `_extract_references`:
a dict with keys `type` and `id`. -/
structure Reference where
  rtype : String
  id : String
deriving DecidableEq, Repr

/-- Scanning core of `re.finditer` for the `trigger_event` pattern: at each
position try the pattern; on a match record the capture and resume after the
matched text, else advance one character. Fuel bounds the recursion and is
instantiated with the text length, which every scan step strictly decreases. -/
def extractRefsAux : Nat → List Char → List Reference
  | 0, _ => []
  | _ + 1, [] => []
  | fuel + 1, c :: rest =>
    match matchPatAt triggerEventPat (c :: rest) with
    | some (cap, r) => ⟨"event", String.mk cap⟩ :: extractRefsAux fuel r
    | none => extractRefsAux fuel rest

/-- Embedding of `_extract_references`: one record of kind `event` per
`finditer` match of `trigger_event\s*=\s*(\w+\.\d+)`, in scan order. -/
def extract_references (content : String) : List Reference :=
  extractRefsAux content.toList.length content.toList

/-- One file of a package: its path segments below the mod root and its
decoded content, or an error message when the file cannot be read or decoded. -/
structure PFile where
  segs : List String
  content : Except String String

/-- A package (mod) directory tree: the directories that exist and the files,
in stable discovery order. -/
structure ModFS where
  dirs : List (List String)
  files : List PFile

/-- Path string used for message attribution, joining the segments. -/
def pathStr (f : PFile) : String := String.intercalate "/" f.segs

/-- Existence check `(mod_path / folder).exists()` for a top-level folder. -/
def folderExists (m : ModFS) (folder : String) : Bool :=
  m.dirs.contains [folder]

/-- Suffix test on strings, used for the `*.txt` and `*.yml` glob tails. -/
def endsWithStr (s suffix : String) : Bool :=
  startsWithL suffix.toList.reverse s.toList.reverse

/-- Glob `events/**/*.txt`: below the `events` folder with a `.txt` tail. -/
def eventsGlob : List String → Bool
  | "events" :: rest => !rest.isEmpty && endsWithStr (rest.getLastD "") ".txt"
  | _ => false

/-- Glob `common/decisions/**/*.txt`. -/
def decisionsGlob : List String → Bool
  | "common" :: "decisions" :: rest => !rest.isEmpty && endsWithStr (rest.getLastD "") ".txt"
  | _ => false

/-- Glob `localization/**/*.yml`. -/
def localizationGlob : List String → Bool
  | "localization" :: rest => !rest.isEmpty && endsWithStr (rest.getLastD "") ".yml"
  | _ => false

/-- The files returned by `mod_path.glob('events/**/*.txt')`. -/
def event_files (m : ModFS) : List PFile :=
  m.files.filter (fun f => eventsGlob f.segs)

/-- The files returned by `mod_path.glob('common/decisions/**/*.txt')`. -/
def decision_files (m : ModFS) : List PFile :=
  m.files.filter (fun f => decisionsGlob f.segs)

/-- The files returned by `mod_path.glob('localization/**/*.yml')`. -/
def localization_files (m : ModFS) : List PFile :=
  m.files.filter (fun f => localizationGlob f.segs)

/-- The fixed required folder list of `_validate_structure`. -/
def required_folders : List String := ["events", "common", "localization"]

/-- The fixed optional folder list of `_validate_structure`. -/
def optional_folders : List String := ["gfx", "music", "interface"]

/-- Embedding of `_validate_structure`: append one error per absent required
folder and one warning per absent optional folder, in declared list order. -/
def validate_structure (m : ModFS) (ew : List String × List String) :
    List String × List String :=
  let errors := required_folders.foldl
    (fun es f => if folderExists m f then es else es ++ [missingRequiredFolderMsg f]) ew.1
  let warnings := optional_folders.foldl
    (fun ws f => if folderExists m f then ws else ws ++ [missingOptionalFolderMsg f]) ew.2
  (errors, warnings)

/-- Embedding of `_validate_events`: for each pattern of the events rules, in
declared order, an absent match appends an error when the field is required
and a warning otherwise. -/
def validate_events (content path : String) (ew : List String × List String) :
    List String × List String :=
  rules_events.patterns.foldl
    (fun ew kp =>
      if fieldSearch kp.2 content then ew
      else if rules_events.required.contains kp.1 then
        (ew.1 ++ [missingFieldMsg true kp.1 path], ew.2)
      else (ew.1, ew.2 ++ [missingFieldMsg false kp.1 path])) ew

/-- Modelled from the spec: the method `_validate_decisions` is called by
`_validate_content` but absent from the source. Per the Content Checker
contract, for each pattern of the decisions rules, in declared order, an
absent match appends an error when the field is required and a warning
otherwise. -/
def validate_decisions (content path : String) (ew : List String × List String) :
    List String × List String :=
  rules_decisions.patterns.foldl
    (fun ew kp =>
      if fieldSearch kp.2 content then ew
      else if rules_decisions.required.contains kp.1 then
        (ew.1 ++ [missingFieldMsg true kp.1 path], ew.2)
      else (ew.1, ew.2 ++ [missingFieldMsg false kp.1 path])) ew

/-- Embedding of `_read_file`: yields the decoded text or fails with the
exception message when the file cannot be read or decoded. -/
def read_file (f : PFile) : Except String String := f.content

/-- Per-event-file step of `_validate_content`: read, then check content. -/
def evStep (ew : List String × List String) (f : PFile) :
    Except String (List String × List String) := do
  let content ← read_file f
  pure (validate_events content (pathStr f) ew)

/-- Per-decision-file step of `_validate_content`: read, then check content. -/
def decStep (ew : List String × List String) (f : PFile) :
    Except String (List String × List String) := do
  let content ← read_file f
  pure (validate_decisions content (pathStr f) ew)

/-- Embedding of `_validate_content`: event files then decision files, each
read and checked in discovery order; a read failure propagates as an
exception, there is no per-file handler. -/
def validate_content (m : ModFS) (ew : List String × List String) :
    Except String (List String × List String) := do
  let ew ← (event_files m).foldlM evStep ew
  let ew ← (decision_files m).foldlM decStep ew
  pure ew

/-- Per-file step of reference collection: read and extract references. -/
def refStep (acc : List Reference) (f : PFile) : Except String (List Reference) := do
  let content ← read_file f
  pure (acc ++ extract_references content)

/-- Modelled from the spec: the method `_validate_references` is called by
`validate_mod` but absent from the source. Per the Reference Resolver
contract, it scans event files and extracts cross-references but emits no
finding (dangling references are not checked); read failures propagate. -/
def validate_references (m : ModFS) (ew : List String × List String) :
    Except String (List String × List String) := do
  let _refs ← (event_files m).foldlM refStep ([] : List Reference)
  pure ew

/-- Body of the `try` block of `validate_mod` after the existence check:
structure, content, then reference validation. -/
def validate_pass (m : ModFS) : Except String (List String × List String) := do
  let ew := validate_structure m ([], [])
  let ew ← validate_content m ew
  let ew ← validate_references m ew
  pure ew

/-- The `ModValidation` dataclass. -/
structure ModValidation where
  is_valid : Bool
  errors : List String
  warnings : List String
deriving DecidableEq, Repr

/-- The collection of mods under `self.mod_path`, by name. -/
def lookupMod (mods : List (String × ModFS)) (name : String) : Option ModFS :=
  (mods.find? (fun p => p.1 == name)).map (fun p => p.2)

/-- Embedding of `validate_mod`: a missing mod path yields the fixed report;
any exception of the pass is caught and converted to a report with that single
error; otherwise `is_valid` is true exactly when no error was collected. -/
def validate_mod (mods : List (String × ModFS)) (mod_name : String) : ModValidation :=
  match lookupMod mods mod_name with
  | none => ⟨false, ["Mod not found"], []⟩
  | some m =>
    match validate_pass m with
    | .error e => ⟨false, [e], []⟩
    | .ok ew => ⟨ew.1.isEmpty, ew.1, ew.2⟩

/-- Values of the analysis dictionary returned by `analyze_mod`. -/
inductive AnalysisValue where
  | files (entries : List (String × List (String × Bool)))
  | refs (entries : List (String × List Reference))
  | counts (entries : List (String × Nat))
  | msg (s : String)
deriving DecidableEq, Repr

/-- Modelled from the spec: the method `_analyze_events` is called by
`analyze_mod` but absent from the source. Per the Analysis Aggregator
contract it reuses Content Checker extraction per event file; per the error
design, I/O failures are captured as data, not raised. -/
def analyze_events (m : ModFS) : List (String × List (String × Bool)) :=
  (event_files m).map (fun f =>
    (pathStr f,
      match f.content with
      | .ok c => rules_events.patterns.map (fun kp => (kp.1, fieldSearch kp.2 c))
      | .error _ => []))

/-- Modelled from the spec: the method `_analyze_decisions` is called by
`analyze_mod` but absent from the source. Symmetric to the events analysis,
over the decisions rules. -/
def analyze_decisions (m : ModFS) : List (String × List (String × Bool)) :=
  (decision_files m).map (fun f =>
    (pathStr f,
      match f.content with
      | .ok c => rules_decisions.patterns.map (fun kp => (kp.1, fieldSearch kp.2 c))
      | .error _ => []))

/-- Embedding of `_analyze_references`: read each event file and extend the
per-category reference index; the `events` key exists once any event file was
visited; a read failure propagates as an exception. -/
def analyze_references (m : ModFS) : Except String (List (String × List Reference)) := do
  let refs ← (event_files m).foldlM refStep ([] : List Reference)
  pure (if (event_files m).isEmpty then [] else [("events", refs)])

/-- Embedding of `_collect_stats`: the glob-match counts per category. -/
def collect_stats (m : ModFS) : List (String × Nat) :=
  [("events", (event_files m).length),
   ("decisions", (decision_files m).length),
   ("localizations", (localization_files m).length)]

/-- Embedding of `analyze_mod`: build the four-key analysis dictionary; any
exception of the pass is caught and converted to a single-key error
dictionary. A nonexistent mod path globs to nothing. -/
def analyze_mod (mods : List (String × ModFS)) (mod_name : String) :
    List (String × AnalysisValue) :=
  let m := (lookupMod mods mod_name).getD ⟨[], []⟩
  match analyze_references m with
  | .error e => [("error", AnalysisValue.msg e)]
  | .ok refs =>
    [("events", AnalysisValue.files (analyze_events m)),
     ("decisions", AnalysisValue.files (analyze_decisions m)),
     ("references", AnalysisValue.refs refs),
     ("stats", AnalysisValue.counts (collect_stats m))]

/-- Key list of an analysis dictionary. -/
def keysOf (l : List (String × AnalysisValue)) : List String := l.map (fun p => p.1)

/-- Index of the leftmost position of the text at which the `trigger_event`
pattern matches, if any. -/
def occIndex (s : List Char) : Option Nat :=
  (List.range (s.length + 1)).find? (fun i => (matchPatAt triggerEventPat (s.drop i)).isSome)

/-- Modelled from the spec wording of the Reference Resolver, as the
comparand of the refinement claim: one Reference per occurrence, in document
order with duplicates retained; each occurrence is taken at the least index
admitting a match and scanning resumes after the matched text. -/
def refSeqAux : Nat → List Char → List Reference
  | 0, _ => []
  | fuel + 1, s =>
    match occIndex s with
    | none => []
    | some i =>
      match matchPatAt triggerEventPat (s.drop i) with
      | some (cap, r) => ⟨"event", String.mk cap⟩ :: refSeqAux fuel r
      | none => []

/-- Spec-side reference sequence of a document. -/
def refSeqSpec (content : String) : List Reference :=
  refSeqAux content.toList.length content.toList

/-- Nonempty proper prefixes of a path, as directory paths. -/
def properPrefixes : List String → List (List String)
  | [] => []
  | [_] => []
  | a :: b :: rest => [a] :: (properPrefixes (b :: rest)).map (fun p => a :: p)

/-- Wellformed package tree: every directory on the path to a file exists. -/
def wfFS (m : ModFS) : Prop :=
  ∀ f ∈ m.files, ∀ p ∈ properPrefixes f.segs, m.dirs.contains p = true

/-- Event file of the end-to-end scenario: `namespace` and `id` declared, no
`trigger` and no `effect`. -/
def c1EventFile : PFile :=
  ⟨["events", "test_event.txt"], Except.ok "namespace = test_events\nid = test_events.1\n"⟩

/-- Decision file of the end-to-end scenario: an `is_shown` block, no
`effect` block. -/
def c1DecisionFile : PFile :=
  ⟨["common", "decisions", "test_decision.txt"], Except.ok "is_shown = \x7b always = yes \x7d\n"⟩

/-- Package of the end-to-end scenario: folders `events`, `common/decisions`
and `localization`, no `gfx`. -/
def c1FS : ModFS :=
  ⟨[["events"], ["common"], ["common", "decisions"], ["localization"]],
   [c1EventFile, c1DecisionFile]⟩

/-- Mod collection holding the scenario package. -/
def c1Mods : List (String × ModFS) := [("test_mod", c1FS)]

/-- C1, counterexample: on the end-to-end scenario package the report is
invalid with the missing-`effect` error and warns about folder `gfx`, but, in
contradiction with the claim, emits no warning mentioning `trigger`: the
events rule table declares no extraction pattern for the optional fields. -/
theorem c1_counterexample :
    (validate_mod c1Mods "test_mod").is_valid = false ∧
    (validate_mod c1Mods "test_mod").warnings.countP (fun w => strContains w "trigger") = 0 ∧
    (validate_mod c1Mods "test_mod").warnings.countP (fun w => strContains w "gfx") = 1 := by
  decide

/-- C1, amended: on the scenario package `validate_mod` returns an invalid
report whose single error is the missing required `effect` field of the
decision file and whose warnings are exactly the three missing optional
folder warnings, `gfx` first; no warning about the event file is produced
because the events rule table has patterns only for `namespace` and `id`. -/
theorem c1_amended_report :
    validate_mod c1Mods "test_mod" =
      ⟨false,
       ["Missing required field \x27effect\x27 in common/decisions/test_decision.txt"],
       ["Missing optional folder: gfx", "Missing optional folder: music",
        "Missing optional folder: interface"]⟩ := by
  decide

/-- C4, counterexample: for a document in category `events` containing none of
the four fields, the checker emits 2 errors but 0 warnings, not the 2
warnings the claim states, because `trigger` and `effect` have no entry in
the `patterns` mapping and the checker iterates over `patterns` only. -/
theorem c4_counterexample :
    (validate_events "" "events/e.txt" ([], [])).1.length = 2 ∧
    (validate_events "" "events/e.txt" ([], [])).2.length = 0 := by
  decide

/-- C4, amended: for a document in category `events` matching neither the
`namespace` pattern nor the `id` pattern, the checker emits exactly the two
required-field errors, in declared order, and no warning. -/
theorem c4_amended_two_errors (content path : String)
    (h1 : fieldSearch namespacePat content = false)
    (h2 : fieldSearch idPat content = false) :
    validate_events content path ([], []) =
      ([missingFieldMsg true "namespace" path, missingFieldMsg true "id" path], []) := by
  simp [validate_events, rules_events, h1, h2]

/-- C4, witness: the empty document matches neither pattern and yields the
two errors and zero warnings. -/
theorem c4_amended_two_errors_witness :
    validate_events "" "events/e.txt" ([], []) =
      ([missingFieldMsg true "namespace" "events/e.txt",
        missingFieldMsg true "id" "events/e.txt"], []) :=
  c4_amended_two_errors "" "events/e.txt" (by decide) (by decide)

/-- C8: in the constructed rule table, every `patterns` key of each content
category lies in exactly one of the `required` and `optional` lists, and the
two lists are disjoint. -/
theorem c8_rule_table_invariant :
    (rules_events.patterns.all
        (fun kp => rules_events.required.contains kp.1 != rules_events.optional.contains kp.1)) = true ∧
    (rules_decisions.patterns.all
        (fun kp => rules_decisions.required.contains kp.1 != rules_decisions.optional.contains kp.1)) = true ∧
    (rules_events.required.all (fun x => !(rules_events.optional.contains x))) = true ∧
    (rules_decisions.required.all (fun x => !(rules_decisions.optional.contains x))) = true := by
  decide

/-- C10: the event content check never appends to the warnings list: both
`patterns` keys of the events rules are required fields, so the optional
branch is unreachable for every document text. -/
theorem c10_no_event_warnings (content path : String) (ew : List String × List String) :
    (validate_events content path ew).2 = ew.2 := by
  simp only [validate_events, rules_events, List.foldl]
  cases h1 : fieldSearch namespacePat content <;>
    cases h2 : fieldSearch idPat content <;>
    simp [h1, h2]

/-- Folding the conditional-append step over a folder list equals appending
the messages of the absent folders, in list order. -/
theorem foldl_if_append (pred : String → Bool) (msg : String → String) :
    ∀ (l : List String) (acc : List String),
      l.foldl (fun es f => if pred f then es else es ++ [msg f]) acc =
        acc ++ (l.filter (fun f => !pred f)).map msg := by
  intro l
  induction l with
  | nil => intro acc; simp
  | cons a l ih =>
    intro acc
    by_cases h : pred a = true
    · simp [List.foldl, h, ih]
    · simp only [Bool.not_eq_true] at h
      simp [List.foldl, h, ih]

/-- C5: the Structure Checker appends its findings in the fixed declared order
of the required and optional folder lists (not in any filesystem order); a
package missing folder `events` gets exactly one error whose message contains
`events`, and one missing folder `gfx` gets exactly one warning whose message
contains `gfx`. -/
theorem c5_structure_checker (m : ModFS) :
    (∀ ew : List String × List String,
        validate_structure m ew =
          (ew.1 ++ (required_folders.filter (fun f => !folderExists m f)).map missingRequiredFolderMsg,
           ew.2 ++ (optional_folders.filter (fun f => !folderExists m f)).map missingOptionalFolderMsg)) ∧
    (folderExists m "events" = false →
      ((validate_structure m ([], [])).1.countP (fun e => strContains e "events")) = 1) ∧
    (folderExists m "gfx" = false →
      ((validate_structure m ([], [])).2.countP (fun w => strContains w "gfx")) = 1) := by
  have hmain : ∀ ew : List String × List String,
      validate_structure m ew =
        (ew.1 ++ (required_folders.filter (fun f => !folderExists m f)).map missingRequiredFolderMsg,
         ew.2 ++ (optional_folders.filter (fun f => !folderExists m f)).map missingOptionalFolderMsg) := by
    intro ew
    unfold validate_structure
    rw [foldl_if_append (fun f => folderExists m f) missingRequiredFolderMsg,
      foldl_if_append (fun f => folderExists m f) missingOptionalFolderMsg]
  refine ⟨hmain, ?_, ?_⟩
  · intro hev
    rw [hmain ([], [])]
    simp only [required_folders, List.filter, hev, Bool.not_false]
    cases hc : folderExists m "common" <;> cases hl : folderExists m "localization" <;> decide
  · intro hg
    rw [hmain ([], [])]
    simp only [optional_folders, List.filter, hg, Bool.not_false]
    cases hmu : folderExists m "music" <;> cases hi : folderExists m "interface" <;> decide

/-- Empty package tree: no directories, no files. -/
def emptyFS : ModFS := ⟨[], []⟩

/-- C5, witness: on the empty package, which misses both `events` and `gfx`,
the checker emits exactly one error containing `events` and exactly one
warning containing `gfx`. -/
theorem c5_structure_checker_witness :
    ((validate_structure emptyFS ([], [])).1.countP (fun e => strContains e "events")) = 1 ∧
    ((validate_structure emptyFS ([], [])).2.countP (fun w => strContains w "gfx")) = 1 :=
  ⟨(c5_structure_checker emptyFS).2.1 (by decide),
   (c5_structure_checker emptyFS).2.2 (by decide)⟩

/-- Shape of a path matched by the events glob: strictly below `events`. -/
theorem eventsGlob_shape (segs : List String) (h : eventsGlob segs = true) :
    ∃ b rest, segs = "events" :: b :: rest := by
  rw [eventsGlob.eq_def] at h
  split at h
  · rename_i rest
    cases rest with
    | nil => simp at h
    | cons b rest => exact ⟨b, rest, rfl⟩
  · simp at h

/-- Shape of a path matched by the decisions glob. -/
theorem decisionsGlob_shape (segs : List String) (h : decisionsGlob segs = true) :
    ∃ b rest, segs = "common" :: "decisions" :: b :: rest := by
  rw [decisionsGlob.eq_def] at h
  split at h
  · rename_i rest
    cases rest with
    | nil => simp at h
    | cons b rest => exact ⟨b, rest, rfl⟩
  · simp at h

/-- Shape of a path matched by the localization glob. -/
theorem localizationGlob_shape (segs : List String) (h : localizationGlob segs = true) :
    ∃ b rest, segs = "localization" :: b :: rest := by
  rw [localizationGlob.eq_def] at h
  split at h
  · rename_i rest
    cases rest with
    | nil => simp at h
    | cons b rest => exact ⟨b, rest, rfl⟩
  · simp at h

/-- C7: on every wellformed directory tree the collected statistics equal the
number of files matched by each category glob convention, and each count is
zero when the category folder is absent. -/
theorem c7_stats_glob_counts (m : ModFS) (hwf : wfFS m) :
    collect_stats m =
      [("events", m.files.countP (fun f => eventsGlob f.segs)),
       ("decisions", m.files.countP (fun f => decisionsGlob f.segs)),
       ("localizations", m.files.countP (fun f => localizationGlob f.segs))] ∧
    (m.dirs.contains ["events"] = false →
      m.files.countP (fun f => eventsGlob f.segs) = 0) ∧
    (m.dirs.contains ["common", "decisions"] = false →
      m.files.countP (fun f => decisionsGlob f.segs) = 0) ∧
    (m.dirs.contains ["localization"] = false →
      m.files.countP (fun f => localizationGlob f.segs) = 0) := by
  refine ⟨?_, ?_, ?_, ?_⟩
  · simp [collect_stats, event_files, decision_files, localization_files,
      List.countP_eq_length_filter]
  · intro h
    rw [List.countP_eq_zero]
    intro f hf hglob
    obtain ⟨b, rest, hseg⟩ := eventsGlob_shape f.segs hglob
    have hmem : ["events"] ∈ properPrefixes f.segs := by
      rw [hseg]; simp [properPrefixes]
    have := hwf f hf ["events"] hmem
    rw [h] at this
    exact Bool.false_ne_true this
  · intro h
    rw [List.countP_eq_zero]
    intro f hf hglob
    obtain ⟨b, rest, hseg⟩ := decisionsGlob_shape f.segs hglob
    have hmem : ["common", "decisions"] ∈ properPrefixes f.segs := by
      rw [hseg]; simp [properPrefixes]
    have := hwf f hf ["common", "decisions"] hmem
    rw [h] at this
    exact Bool.false_ne_true this
  · intro h
    rw [List.countP_eq_zero]
    intro f hf hglob
    obtain ⟨b, rest, hseg⟩ := localizationGlob_shape f.segs hglob
    have hmem : ["localization"] ∈ properPrefixes f.segs := by
      rw [hseg]; simp [properPrefixes]
    have := hwf f hf ["localization"] hmem
    rw [h] at this
    exact Bool.false_ne_true this

/-- C7, witness: the empty tree is wellformed, misses every category folder,
and indeed reports zero for each category. -/
theorem c7_stats_glob_counts_witness :
    collect_stats emptyFS =
      [("events", emptyFS.files.countP (fun f => eventsGlob f.segs)),
       ("decisions", emptyFS.files.countP (fun f => decisionsGlob f.segs)),
       ("localizations", emptyFS.files.countP (fun f => localizationGlob f.segs))] ∧
    emptyFS.files.countP (fun f => eventsGlob f.segs) = 0 :=
  ⟨(c7_stats_glob_counts emptyFS (by intro f hf; simp [emptyFS] at hf)).1,
   (c7_stats_glob_counts emptyFS (by intro f hf; simp [emptyFS] at hf)).2.1 (by decide)⟩

/-- C9: `validate_mod` is total and converts every exceptional outcome into a
returned report: a missing mod path yields the fixed single-error report, a
pass that raises internally yields a report with `is_valid` false, exactly
that one error and no warnings, and a completed pass yields its findings with
`is_valid` true exactly when no error was collected. -/
theorem c9_validate_mod_total (mods : List (String × ModFS)) (name : String) :
    (lookupMod mods name = none →
      validate_mod mods name = ⟨false, ["Mod not found"], []⟩) ∧
    (∀ m e, lookupMod mods name = some m → validate_pass m = Except.error e →
      validate_mod mods name = ⟨false, [e], []⟩) ∧
    (∀ m ew, lookupMod mods name = some m → validate_pass m = Except.ok ew →
      validate_mod mods name = ⟨ew.1.isEmpty, ew.1, ew.2⟩) := by
  refine ⟨?_, ?_, ?_⟩
  · intro h; simp [validate_mod, h]
  · intro m e h1 h2; simp [validate_mod, h1, h2]
  · intro m ew h1 h2; simp [validate_mod, h1, h2]

/-- C9, witness: looking up a mod in an empty collection fails and returns the
fixed report. -/
theorem c9_validate_mod_total_witness :
    validate_mod [] "missing_mod" = ⟨false, ["Mod not found"], []⟩ :=
  (c9_validate_mod_total [] "missing_mod").1 rfl

/-- Folding the event-file step over a list whose first unreadable file is `f`
short-circuits with the read error of `f`. -/
theorem foldlM_evStep_error :
    ∀ (pre : List PFile) (f : PFile) (post : List PFile) (e : String)
      (acc : List String × List String),
      (∀ g ∈ pre, ∃ c, g.content = Except.ok c) →
      f.content = Except.error e →
      (pre ++ f :: post).foldlM evStep acc = Except.error e := by
  intro pre
  induction pre with
  | nil =>
    intro f post e acc _ hf
    have hstep : evStep acc f = Except.error e := by
      unfold evStep read_file
      rw [hf]
      rfl
    simp only [List.nil_append, List.foldlM_cons, hstep]
    rfl
  | cons g pre ih =>
    intro f post e acc hpre hf
    obtain ⟨c, hg⟩ := hpre g (by simp)
    have hstep : evStep acc g = Except.ok (validate_events c (pathStr g) acc) := by
      unfold evStep read_file
      rw [hg]
      rfl
    simp only [List.cons_append, List.foldlM_cons, hstep]
    exact ih f post e _ (fun g' hg' => hpre g' (by simp [hg'])) hf

/-- Folding the event-file step over readable files never raises. -/
theorem foldlM_evStep_ok :
    ∀ (l : List PFile) (acc : List String × List String),
      (∀ g ∈ l, ∃ c, g.content = Except.ok c) →
      ∃ v, l.foldlM evStep acc = Except.ok v := by
  intro l
  induction l with
  | nil => intro acc _; exact ⟨acc, rfl⟩
  | cons g l ih =>
    intro acc h
    obtain ⟨c, hg⟩ := h g (by simp)
    have hstep : evStep acc g = Except.ok (validate_events c (pathStr g) acc) := by
      unfold evStep read_file
      rw [hg]
      rfl
    simp only [List.foldlM_cons, hstep]
    exact ih _ (fun g' hg' => h g' (by simp [hg']))

/-- Folding the decision-file step over a list whose first unreadable file is
`f` short-circuits with the read error of `f`. -/
theorem foldlM_decStep_error :
    ∀ (pre : List PFile) (f : PFile) (post : List PFile) (e : String)
      (acc : List String × List String),
      (∀ g ∈ pre, ∃ c, g.content = Except.ok c) →
      f.content = Except.error e →
      (pre ++ f :: post).foldlM decStep acc = Except.error e := by
  intro pre
  induction pre with
  | nil =>
    intro f post e acc _ hf
    have hstep : decStep acc f = Except.error e := by
      unfold decStep read_file
      rw [hf]
      rfl
    simp only [List.nil_append, List.foldlM_cons, hstep]
    rfl
  | cons g pre ih =>
    intro f post e acc hpre hf
    obtain ⟨c, hg⟩ := hpre g (by simp)
    have hstep : decStep acc g = Except.ok (validate_decisions c (pathStr g) acc) := by
      unfold decStep read_file
      rw [hg]
      rfl
    simp only [List.cons_append, List.foldlM_cons, hstep]
    exact ih f post e _ (fun g' hg' => hpre g' (by simp [hg'])) hf

/-- Content validation raises the read error of the first unreadable decision
file once every event file was readable. -/
theorem validate_content_error_dec (m : ModFS) (ew0 : List String × List String)
    (pred : List PFile) (f : PFile) (post : List PFile) (e : String)
    (hE : ∀ g ∈ event_files m, ∃ c, g.content = Except.ok c)
    (hD : decision_files m = pred ++ f :: post)
    (hpred : ∀ g ∈ pred, ∃ c, g.content = Except.ok c)
    (hf : f.content = Except.error e) :
    validate_content m ew0 = Except.error e := by
  obtain ⟨v, hv⟩ := foldlM_evStep_ok (event_files m) ew0 hE
  have hdef : validate_content m ew0 =
      ((event_files m).foldlM evStep ew0 >>= fun ew =>
        (decision_files m).foldlM decStep ew >>= fun ew => pure ew) := rfl
  rw [hdef, hv]
  show ((decision_files m).foldlM decStep v >>= fun ew => pure ew) = Except.error e
  rw [hD, foldlM_decStep_error pred f post e v hpred hf]
  rfl

/-- C2, amended: a file that cannot be read or decoded aborts the whole
validation pass: for every package whose pass read sequence — event files
then decision files — contains a first unreadable file, `validate_mod`
returns a report whose errors are exactly the single read-error message and
whose warnings are empty — findings collected before the failure are
discarded and later files are not processed. -/
theorem c2_amended_abort (mods : List (String × ModFS)) (name : String) (m : ModFS)
    (pre : List PFile) (f : PFile) (post : List PFile) (e : String)
    (hm : lookupMod mods name = some m)
    (hsplit : event_files m ++ decision_files m = pre ++ f :: post)
    (hpre : ∀ g ∈ pre, ∃ c, g.content = Except.ok c)
    (hf : f.content = Except.error e) :
    validate_mod mods name = ⟨false, [e], []⟩ := by
  have hcontent : validate_content m (validate_structure m ([], [])) = Except.error e := by
    rcases List.append_eq_append_iff.mp hsplit with ⟨k, hk1, hk2⟩ | ⟨k, hk1, hk2⟩
    · exact validate_content_error_dec m _ k f post e
        (fun g hg => hpre g (by rw [hk1]; exact List.mem_append_left _ hg))
        hk2
        (fun g hg => hpre g (by rw [hk1]; exact List.mem_append_right _ hg))
        hf
    · cases k with
      | nil =>
        simp only [List.append_nil] at hk1
        simp only [List.nil_append] at hk2
        exact validate_content_error_dec m _ [] f post e
          (fun g hg => hpre g (by rw [hk1] at hg; exact hg))
          hk2.symm
          (fun g hg => absurd hg (by simp))
          hf
      | cons x k2 =>
        simp only [List.cons_append] at hk2
        injection hk2 with hfx hpost
        subst hfx
        have hdef : validate_content m (validate_structure m ([], [])) =
            ((event_files m).foldlM evStep (validate_structure m ([], [])) >>= fun ew =>
              (decision_files m).foldlM decStep ew >>= fun ew => pure ew) := rfl
        rw [hdef, hk1, foldlM_evStep_error pre f k2 e _ hpre hf]
        rfl
  have hpass : validate_pass m = Except.error e := by
    have hdef : validate_pass m =
        (validate_content m (validate_structure m ([], [])) >>= fun ew =>
          validate_references m ew >>= fun ew => pure ew) := rfl
    rw [hdef, hcontent]
    rfl
  simp [validate_mod, hm, hpass]

/-- Event file whose bytes cannot be decoded as text. -/
def c2BadFile : PFile := ⟨["events", "broken.txt"], Except.error "UnicodeDecodeError: bad byte"⟩

/-- Readable event file with no recognized fields, after the unreadable one. -/
def c2GoodFile : PFile := ⟨["events", "empty.txt"], Except.ok ""⟩

/-- Package with an unreadable event file followed by a readable one, and
several optional folders absent. -/
def c2FS : ModFS := ⟨[["events"], ["common"], ["localization"]], [c2BadFile, c2GoodFile]⟩

/-- Collection holding the package with the unreadable file. -/
def c2Mods : List (String × ModFS) := [("broken_mod", c2FS)]

/-- C2, counterexample: on a package with an unreadable event file the pass
does not continue: the report holds only the read error, the structure
warnings collected earlier are discarded, and the later readable file with
two missing required fields contributes no finding. -/
theorem c2_counterexample :
    validate_mod c2Mods "broken_mod" = ⟨false, ["UnicodeDecodeError: bad byte"], []⟩ ∧
    (validate_mod c2Mods "broken_mod").errors.countP
      (fun e => strContains e "empty.txt") = 0 := by
  constructor
  · decide
  · decide

/-- Readable event file of the decision-abort package. -/
def c2EvOkFile : PFile := ⟨["events", "ok.txt"], Except.ok "namespace = a\nid = a.1\n"⟩

/-- Decision file whose bytes cannot be decoded as text. -/
def c2BadDecFile : PFile := ⟨["common", "decisions", "bad.txt"], Except.error "boom2"⟩

/-- Package whose pass fails first at an unreadable decision file. -/
def c2DecFS : ModFS :=
  ⟨[["events"], ["common"], ["common", "decisions"], ["localization"]],
   [c2EvOkFile, c2BadDecFile]⟩

/-- Collection holding the package with the unreadable decision file. -/
def c2ModsD : List (String × ModFS) := [("dec_mod", c2DecFS)]

/-- C2, witness: the amended abort theorem applied to a package whose first
unreadable file is an event file, and to one whose first unreadable file is a
decision file. -/
theorem c2_amended_abort_witness :
    validate_mod c2Mods "broken_mod" = ⟨false, ["UnicodeDecodeError: bad byte"], []⟩ ∧
    validate_mod c2ModsD "dec_mod" = ⟨false, ["boom2"], []⟩ :=
  ⟨c2_amended_abort c2Mods "broken_mod" c2FS [] c2BadFile [c2GoodFile]
     "UnicodeDecodeError: bad byte" rfl rfl (by intro g hg; simp at hg) rfl,
   c2_amended_abort c2ModsD "dec_mod" c2DecFS [c2EvOkFile] c2BadDecFile []
     "boom2" rfl rfl
     (by
       intro g hg
       simp only [List.mem_singleton] at hg
       subst hg
       exact ⟨_, rfl⟩)
     rfl⟩

/-- Folding the reference step over readable files never raises. -/
theorem foldlM_refStep_ok :
    ∀ (l : List PFile) (acc : List Reference),
      (∀ g ∈ l, ∃ c, g.content = Except.ok c) →
      ∃ v, l.foldlM refStep acc = Except.ok v := by
  intro l
  induction l with
  | nil => intro acc _; exact ⟨acc, rfl⟩
  | cons g l ih =>
    intro acc h
    obtain ⟨c, hg⟩ := h g (by simp)
    have hstep : refStep acc g = Except.ok (acc ++ extract_references c) := by
      unfold refStep read_file
      rw [hg]
      rfl
    simp only [List.foldlM_cons, hstep]
    exact ih _ (fun g' hg' => h g' (by simp [hg']))

/-- C3, amended: for every package root all of whose event files are readable,
`analyze_mod` returns a mapping with exactly the keys `events`, `decisions`,
`references` and `stats`, in that order; when reading an event file fails the
exception is caught and a single-key `error` mapping is returned instead.
The report is a pure function of the package, so it is built fresh per call. -/
theorem c3_amended_keys (mods : List (String × ModFS)) (name : String)
    (h : ∀ m, lookupMod mods name = some m →
      ∀ f ∈ event_files m, ∃ c, f.content = Except.ok c) :
    keysOf (analyze_mod mods name) = ["events", "decisions", "references", "stats"] := by
  cases hl : lookupMod mods name with
  | none =>
    unfold analyze_mod
    rw [hl]
    rfl
  | some m =>
    obtain ⟨v, hv⟩ := foldlM_refStep_ok (event_files m) [] (h m hl)
    have hrefs : analyze_references m =
        Except.ok (if (event_files m).isEmpty then [] else [("events", v)]) := by
      have hdef : analyze_references m =
          ((event_files m).foldlM refStep [] >>= fun refs =>
            pure (if (event_files m).isEmpty then [] else [("events", refs)])) := rfl
      rw [hdef, hv]
      rfl
    simp only [analyze_mod, hl, Option.getD_some]
    rw [hrefs]
    rfl

/-- Package whose only event file cannot be decoded. -/
def c3FS : ModFS := ⟨[["events"]], [⟨["events", "bad.txt"], Except.error "boom"⟩]⟩

/-- Collection holding the package with the undecodable event file. -/
def c3Mods : List (String × ModFS) := [("m", c3FS)]

/-- C3, counterexample: on a package root with an undecodable event file the
analysis mapping has the single key `error`, not the four claimed keys. -/
theorem c3_counterexample : keysOf (analyze_mod c3Mods "m") = ["error"] := by
  decide

/-- C3, witness: on the scenario package, whose event file is readable, the
analysis mapping has exactly the four keys. -/
theorem c3_amended_keys_witness :
    keysOf (analyze_mod c1Mods "test_mod") = ["events", "decisions", "references", "stats"] :=
  c3_amended_keys c1Mods "test_mod" (by
    intro m hm f hf
    have hsome : lookupMod c1Mods "test_mod" = some c1FS := rfl
    rw [hsome] at hm
    cases hm
    have hev : event_files c1FS = [c1EventFile] := rfl
    rw [hev] at hf
    simp at hf
    subst hf
    exact ⟨_, rfl⟩)

/-- A pattern list starting a text is no longer than the text. -/
theorem startsWithL_length : ∀ (p s : List Char), startsWithL p s = true → p.length ≤ s.length := by
  intro p
  induction p with
  | nil => intro s _; simp
  | cons a ps ih =>
    intro s h
    cases s with
    | nil => simp [startsWithL] at h
    | cons c cs =>
      simp only [startsWithL, Bool.and_eq_true] at h
      have := ih cs h.2
      simp only [List.length_cons]
      omega

/-- Dropping leading whitespace never lengthens the text. -/
theorem dropSpaces_length_le (s : List Char) : (dropSpaces s).length ≤ s.length := by
  unfold dropSpaces
  induction s with
  | nil => simp
  | cons c cs ih =>
    rw [List.dropWhile_cons]
    split
    · exact Nat.le_trans ih (by simp)
    · simp

/-- The rest after a value match is no longer than the input. -/
theorem takeValue_length_le (vf : ValueForm) (s cap r : List Char)
    (h : takeValue vf s = some (cap, r)) : r.length ≤ s.length := by
  cases vf
  case word =>
    simp only [takeValue, takeWord] at h
    split at h
    · exact absurd h (by simp)
    · simp only [Option.some.injEq, Prod.mk.injEq] at h
      obtain ⟨h1, h2⟩ := h
      subst h2
      simp
  case dottedId =>
    simp only [takeValue, takeDottedId] at h
    split at h
    · exact absurd h (by simp)
    · split at h
      case _ rest heq =>
        split at h
        · exact absurd h (by simp)
        · simp only [Option.some.injEq, Prod.mk.injEq] at h
          obtain ⟨h1, h2⟩ := h
          subst h2
          have hlen := congrArg List.length heq
          simp only [List.length_drop, List.length_cons] at hlen
          simp only [List.length_drop]
          omega
      case _ => exact absurd h (by simp)
  case braceBlock =>
    simp only [takeValue, takeBrace] at h
    split at h
    case _ rest =>
      split at h
      · exact absurd h (by simp)
      · split at h
        case _ r2 heq =>
          simp only [Option.some.injEq, Prod.mk.injEq] at h
          obtain ⟨h1, h2⟩ := h
          subst h2
          have hlen := congrArg List.length heq
          simp only [List.length_drop, List.length_cons] at hlen
          simp only [List.length_cons]
          omega
        case _ => exact absurd h (by simp)
    case _ => exact absurd h (by simp)

/-- A successful pattern match strictly consumes text. -/
theorem matchPatAt_length (p : FieldPattern) (s cap r : List Char)
    (hk : p.key.toList ≠ []) (h : matchPatAt p s = some (cap, r)) : r.length < s.length := by
  simp only [matchPatAt] at h
  split at h
  case isTrue hpre =>
    split at h
    case _ s2 heq =>
      have hval := takeValue_length_le p.form (dropSpaces s2) cap r h
      have h1 : (dropSpaces s2).length ≤ s2.length := dropSpaces_length_le s2
      have h2 := congrArg List.length heq
      simp only [List.length_cons] at h2
      have h3 : (dropSpaces (s.drop p.key.toList.length)).length ≤
          (s.drop p.key.toList.length).length := dropSpaces_length_le _
      have h4 : (s.drop p.key.toList.length).length = s.length - p.key.toList.length := by simp
      have h5 : p.key.toList.length ≤ s.length := startsWithL_length _ _ hpre
      have h6 : 0 < p.key.toList.length := List.length_pos.mpr hk
      omega
    case _ => exact absurd h (by simp)
  case isFalse => exact absurd h (by simp)

/-- The key of the trigger-event pattern is nonempty. -/
theorem trigKey_ne_nil : triggerEventPat.key.toList ≠ [] := by decide

/-- The empty text has no occurrence. -/
theorem occIndex_nil : occIndex [] = none := by decide

/-- A match at the head makes the leftmost occurrence index zero. -/
theorem occIndex_cons_match (c : Char) (rest cap r : List Char)
    (hm : matchPatAt triggerEventPat (c :: rest) = some (cap, r)) :
    occIndex (c :: rest) = some 0 := by
  unfold occIndex
  have hl : (c :: rest).length + 1 = rest.length + 1 + 1 := by simp
  rw [hl, List.range_succ_eq_map]
  apply List.find?_cons_of_pos
  simp [hm]

/-- With no match at the head, the leftmost occurrence index shifts by one. -/
theorem occIndex_cons_none (c : Char) (rest : List Char)
    (h : matchPatAt triggerEventPat (c :: rest) = none) :
    occIndex (c :: rest) = (occIndex rest).map Nat.succ := by
  unfold occIndex
  have hl : (c :: rest).length + 1 = rest.length + 1 + 1 := by simp
  rw [hl, List.range_succ_eq_map]
  rw [List.find?_cons_of_neg]
  · rw [List.find?_map]
    have hp : ((fun i => (matchPatAt triggerEventPat ((c :: rest).drop i)).isSome) ∘ Nat.succ) =
        (fun i => (matchPatAt triggerEventPat (rest.drop i)).isSome) := by
      funext i
      rfl
    rw [hp]
  · simp [h]

/-- A leftmost occurrence index admits a match there. -/
theorem occIndex_some_match (s : List Char) (i : Nat) (h : occIndex s = some i) :
    ∃ cap r, matchPatAt triggerEventPat (s.drop i) = some (cap, r) := by
  have hp := List.find?_some h
  simp only at hp
  obtain ⟨x, hx⟩ := Option.isSome_iff_exists.mp hp
  exact ⟨x.1, x.2, by rw [hx]⟩

/-- Unfolding of the spec-side scan when no occurrence remains. -/
theorem refSeqAux_succ_none (fuel : Nat) (s : List Char) (h : occIndex s = none) :
    refSeqAux (fuel + 1) s = [] := by
  simp [refSeqAux, h]

/-- Unfolding of the spec-side scan at an occurrence. -/
theorem refSeqAux_succ_some (fuel : Nat) (s : List Char) (i : Nat) (cap r : List Char)
    (h : occIndex s = some i) (hm : matchPatAt triggerEventPat (s.drop i) = some (cap, r)) :
    refSeqAux (fuel + 1) s = ⟨"event", String.mk cap⟩ :: refSeqAux fuel r := by
  simp [refSeqAux, h, hm]

/-- The spec-side scan does not depend on the fuel once it covers the text. -/
theorem refSeqAux_congr : ∀ (n f1 f2 : Nat) (s : List Char), s.length ≤ n →
    s.length ≤ f1 → s.length ≤ f2 → refSeqAux f1 s = refSeqAux f2 s := by
  intro n
  induction n with
  | zero =>
    intro f1 f2 s hn _ _
    have hs : s = [] := List.length_eq_zero.mp (Nat.le_zero.mp hn)
    subst hs
    cases f1 <;> cases f2 <;> simp [refSeqAux, occIndex_nil]
  | succ n ih =>
    intro f1 f2 s hn h1 h2
    cases f1 with
    | zero =>
      have hs : s = [] := List.length_eq_zero.mp (Nat.le_zero.mp h1)
      subst hs
      cases f2 <;> simp [refSeqAux, occIndex_nil]
    | succ f1 =>
      cases f2 with
      | zero =>
        have hs : s = [] := List.length_eq_zero.mp (Nat.le_zero.mp h2)
        subst hs
        simp [refSeqAux, occIndex_nil]
      | succ f2 =>
        cases hocc : occIndex s with
        | none => rw [refSeqAux_succ_none f1 s hocc, refSeqAux_succ_none f2 s hocc]
        | some i =>
          obtain ⟨cap, r, hm⟩ := occIndex_some_match s i hocc
          rw [refSeqAux_succ_some f1 s i cap r hocc hm,
            refSeqAux_succ_some f2 s i cap r hocc hm]
          have hdl : (s.drop i).length ≤ s.length := by simp
          have hr : r.length < s.length :=
            Nat.lt_of_lt_of_le (matchPatAt_length triggerEventPat (s.drop i) cap r
              trigKey_ne_nil hm) hdl
          congr 1
          exact ih f1 f2 r (by omega) (by omega) (by omega)

/-- The source scan agrees with the spec-side leftmost-occurrence scan for
every fuel covering the text length. -/
theorem extractRefsAux_eq_refSeqAux : ∀ (fuel : Nat) (s : List Char), s.length ≤ fuel →
    extractRefsAux fuel s = refSeqAux fuel s := by
  intro fuel
  induction fuel with
  | zero => intro s _; rfl
  | succ fuel ih =>
    intro s hlen
    cases s with
    | nil =>
      rw [refSeqAux_succ_none fuel [] occIndex_nil]
      rfl
    | cons c rest =>
      have hrest : rest.length ≤ fuel := by
        simp only [List.length_cons] at hlen
        omega
      cases hm : matchPatAt triggerEventPat (c :: rest) with
      | some val =>
        obtain ⟨cap, r⟩ := val
        have hL : extractRefsAux (fuel + 1) (c :: rest) =
            ⟨"event", String.mk cap⟩ :: extractRefsAux fuel r := by
          simp [extractRefsAux, hm]
        have hr : r.length < (c :: rest).length :=
          matchPatAt_length _ _ _ _ trigKey_ne_nil hm
        have hocc : occIndex (c :: rest) = some 0 := occIndex_cons_match c rest cap r hm
        have hR := refSeqAux_succ_some fuel (c :: rest) 0 cap r hocc (by simpa using hm)
        rw [hL, hR]
        have hihr : extractRefsAux fuel r = refSeqAux fuel r := by
          apply ih
          simp only [List.length_cons] at hr
          omega
        rw [hihr]
      | none =>
        have hL : extractRefsAux (fuel + 1) (c :: rest) = extractRefsAux fuel rest := by
          simp [extractRefsAux, hm]
        rw [hL, ih rest hrest]
        have hocc := occIndex_cons_none c rest hm
        cases hocc2 : occIndex rest with
        | none =>
          rw [hocc2] at hocc
          simp only [Option.map_none'] at hocc
          rw [refSeqAux_succ_none fuel (c :: rest) hocc]
          cases fuel with
          | zero => rfl
          | succ f => rw [refSeqAux_succ_none f rest hocc2]
        | some i =>
          rw [hocc2] at hocc
          simp only [Option.map_some'] at hocc
          obtain ⟨cap, r, hmi⟩ := occIndex_some_match rest i hocc2
          have hdrop : (c :: rest).drop (Nat.succ i) = rest.drop i := rfl
          have hR := refSeqAux_succ_some fuel (c :: rest) (Nat.succ i) cap r hocc
            (by rw [hdrop]; exact hmi)
          rw [hR]
          have hdl : (rest.drop i).length ≤ rest.length := by simp
          have hrlen : r.length < rest.length :=
            Nat.lt_of_lt_of_le (matchPatAt_length triggerEventPat (rest.drop i) cap r
              trigKey_ne_nil hmi) hdl
          cases fuel with
          | zero =>
            have hnil : rest = [] := List.length_eq_zero.mp (Nat.le_zero.mp hrest)
            subst hnil
            rw [occIndex_nil] at hocc2
            exact absurd hocc2 (by simp)
          | succ f =>
            rw [refSeqAux_succ_some f rest i cap r hocc2 hmi]
            congr 1
            exact refSeqAux_congr rest.length f (f + 1) r (by omega) (by omega) (by omega)

/-- Every record the source scan emits has kind `event`. -/
theorem extractRefsAux_rtype : ∀ (fuel : Nat) (s : List Char),
    ∀ ref ∈ extractRefsAux fuel s, ref.rtype = "event" := by
  intro fuel
  induction fuel with
  | zero => intro s ref h; simp [extractRefsAux] at h
  | succ fuel ih =>
    intro s ref h
    cases s with
    | nil => simp [extractRefsAux] at h
    | cons c rest =>
      cases hm : matchPatAt triggerEventPat (c :: rest) with
      | some val =>
        obtain ⟨cap, r⟩ := val
        simp only [extractRefsAux, hm] at h
        rcases List.mem_cons.mp h with h1 | h2
        · subst h1; rfl
        · exact ih r ref h2
      | none =>
        simp only [extractRefsAux, hm] at h
        exact ih rest ref h

/-- C6: the Reference Resolver emits one record of kind `event`, carrying the
captured identifier, per occurrence of the trigger-event pattern, in document
order with duplicates retained: its output equals the spec-side scan that
repeatedly takes the leftmost remaining occurrence. The embedded function is
pure — the source reads no mutable state — so running it twice on identical
text yields identical ordered sequences. -/
theorem c6_reference_resolver (content : String) :
    extract_references content = refSeqSpec content ∧
    (∀ ref ∈ extract_references content, ref.rtype = "event") := by
  constructor
  · exact extractRefsAux_eq_refSeqAux content.toList.length content.toList (Nat.le_refl _)
  · exact extractRefsAux_rtype content.toList.length content.toList

/-- C6, witness: a document referencing the same target twice yields the two
records of the spec-side scan, and a concrete emitted record has kind
`event`. -/
theorem c6_reference_resolver_witness :
    extract_references "trigger_event = a.1 trigger_event = a.1" =
      refSeqSpec "trigger_event = a.1 trigger_event = a.1" ∧
    (⟨"event", "a.1"⟩ : Reference).rtype = "event" :=
  ⟨(c6_reference_resolver "trigger_event = a.1 trigger_event = a.1").1,
   (c6_reference_resolver "trigger_event = a.1").2 ⟨"event", "a.1"⟩ (by decide)⟩
